import Mathlib

/-!
Verification development for the `analise-investimentos` allocation engine.

The definitions below are a shallow embedding, in exact rational arithmetic,
of the engine modules:
  * `engine/models.py`      — `AssetClass`, `ZoneStatus`, `OrderAction`,
                              `Asset`, `Band`, `Order`;
  * `engine/portfolio.py`   — portfolio value and per-class weights;
  * `engine/grey_zones.py`  — `compute_band`;
  * `engine/rebalancer.py`  — `compute_class_targets`, `compute_rebalancing`,
                              `_compute_class_buys`, `_compute_sells`;
  * `engine/markowitz.py`   — `compute_log_returns`, `suggest_targets`.

Python `float` arithmetic is modelled by `ℚ`; `math.floor` by `Int.floor`.
Python dictionaries keyed by strings are modelled by association lists
(`List (String × _)` with `List.lookup`); dictionaries keyed by asset class,
which the rebalancer only ever reads through `.get(cls, default)` and iterates
in insertion order, are modelled by a total function together with the list of
present classes in first-occurrence order.  Python's stable `list.sort` /
`sorted` is modelled by `List.insertionSort`, which is likewise stable.
-/

namespace Invest

/-- The seven asset classes of `engine/models.py` (`class AssetClass`). -/
inductive AssetClass
  | ACAO
  | FII
  | ETF
  | BDR
  | CRYPTO
  | TESOURO
  | RENDA_FIXA_PRIVADA
deriving DecidableEq, Repr

/-- Zone classification of `engine/models.py` (`class ZoneStatus`). -/
inductive ZoneStatus
  | BUY
  | HOLD
  | SELL
deriving DecidableEq, Repr

/-- Order action of `engine/models.py` (`class OrderAction`). -/
inductive OrderAction
  | BUY
  | SELL
deriving DecidableEq, Repr

/-- Lookup of an `AssetClass` by its enum string value, modelling the Python
enum call `AssetClass(value)` which succeeds exactly on the seven values. -/
def assetClassOfValue (s : String) : Option AssetClass :=
  if s = "ACAO" then some AssetClass.ACAO
  else if s = "FII" then some AssetClass.FII
  else if s = "ETF" then some AssetClass.ETF
  else if s = "BDR" then some AssetClass.BDR
  else if s = "CRYPTO" then some AssetClass.CRYPTO
  else if s = "TESOURO" then some AssetClass.TESOURO
  else if s = "RENDA_FIXA_PRIVADA" then some AssetClass.RENDA_FIXA_PRIVADA
  else none

/-- Python's `str.upper()` on the ASCII strings used as enum values,
written as a character-wise map. -/
def pyUpper (s : String) : String := ⟨s.data.map Char.toUpper⟩

/-- Embedding of `AssetClass.from_str` (models.py lines 16-21): try the enum
constructor on the upper-cased string; on `ValueError` fall back to `ACAO`. -/
def AssetClass.from_str (s : String) : AssetClass :=
  (assetClassOfValue (pyUpper s)).getD AssetClass.ACAO

/-- Embedding of the `Asset` dataclass of `engine/models.py`. -/
structure Asset where
  ticker : String
  asset_class : AssetClass
  quantity : ℚ
  avg_price : ℚ
  current_price : ℚ
  target_weight : ℚ
  current_weight : ℚ
deriving DecidableEq, Repr

/-- Derived property `Asset.current_value` (models.py): `quantity × current_price`. -/
def Asset.current_value (a : Asset) : ℚ := a.quantity * a.current_price

/-- Embedding of the `Band` dataclass of `engine/models.py`.  The Python
dataclass stores `lower_bound`/`upper_bound` computed in `__post_init__` from
the three constructor arguments; we model them as derived functions, which is
equivalent because every `Band` passes through `__post_init__`. -/
structure Band where
  target_weight : ℚ
  relative_pct : ℚ
  absolute_pp : ℚ
deriving DecidableEq, Repr

/-- Lower band bound (models.py line 67): clamped at 0. -/
def Band.lower_bound (b : Band) : ℚ :=
  max (b.target_weight - b.target_weight * b.relative_pct - b.absolute_pp) 0

/-- Upper band bound (models.py line 68). -/
def Band.upper_bound (b : Band) : ℚ :=
  b.target_weight + b.target_weight * b.relative_pct + b.absolute_pp

/-- Embedding of `compute_band` of `engine/grey_zones.py`: it simply constructs
the dataclass, whose `__post_init__` derives the bounds. -/
def compute_band (target_weight relative_pct absolute_pp : ℚ) : Band :=
  Band.mk target_weight relative_pct absolute_pp

/-- Embedding of the `Order` dataclass of `engine/models.py`. -/
structure Order where
  ticker : String
  action : OrderAction
  quantity : ℚ
  price : ℚ
deriving DecidableEq, Repr

/-- Derived property `Order.amount`: `quantity × price`. -/
def Order.amount (o : Order) : ℚ := o.quantity * o.price

/-- The `zones` argument of the rebalancer: `dict[str, tuple[ZoneStatus, Band]]`,
modelled as an association list. -/
abbrev Zones : Type := List (String × ZoneStatus × Band)

/-- Reading `zones.get(ticker, (ZoneStatus.HOLD, None))[0]`
(rebalancer.py line 137). -/
def zoneStatusOf (zones : Zones) (t : String) : ZoneStatus :=
  match List.lookup t zones with
  | some sb => sb.1
  | none => ZoneStatus.HOLD

/-- Embedding of `compute_portfolio_value` of `engine/portfolio.py`. -/
def compute_portfolio_value (assets : List Asset) : ℚ :=
  (assets.map Asset.current_value).sum

/-- Keep the first occurrence of each element, modelling the insertion order
of a Python `dict`/`defaultdict` built by iterating a list (`seen` is the set
of keys already inserted). -/
def dedupFirstAux {α : Type} [DecidableEq α] (seen : List α) : List α → List α
  | [] => []
  | x :: xs => if x ∈ seen then dedupFirstAux seen xs else x :: dedupFirstAux (x :: seen) xs

/-- The asset classes present in a portfolio, in first-occurrence order — the
key order of the dicts `class_targets`, `class_weights` and `assets_by_class`
built in rebalancer.py lines 39-43. -/
def classesOf (assets : List Asset) : List AssetClass :=
  dedupFirstAux [] (assets.map Asset.asset_class)

/-- Value of `compute_class_targets(assets).get(c, 0)` (rebalancer.py
lines 10-15): sum of target weights of the assets in class `c`. -/
def compute_class_targets (assets : List Asset) (c : AssetClass) : ℚ :=
  ((assets.filter fun a => decide (a.asset_class = c)).map Asset.target_weight).sum

/-- Value of `compute_class_weights(assets).get(c, 0.0)` (portfolio.py
lines 19-27): the dict is empty when total value ≤ 0, so every `.get`
returns 0 in that case. -/
def compute_class_weights (assets : List Asset) (c : AssetClass) : ℚ :=
  let total := compute_portfolio_value assets
  if total ≤ 0 then 0
  else ((assets.filter fun a => decide (a.asset_class = c)).map Asset.current_value).sum
    / total * 100

/-- The class-level gap `target - current` of rebalancer.py line 48. -/
def class_gap (assets : List Asset) (c : AssetClass) : ℚ :=
  compute_class_targets assets c - compute_class_weights assets c

/-- Key list of the `class_deficits` dict (rebalancer.py lines 45-50):
present classes whose gap is strictly positive, in insertion order. -/
def deficit_classes (assets : List Asset) : List AssetClass :=
  (classesOf assets).filter fun c => decide (0 < class_gap assets c)

/-- `total_deficit = sum(class_deficits.values())` (rebalancer.py line 52). -/
def total_deficit (assets : List Asset) : ℚ :=
  ((deficit_classes assets).map (class_gap assets)).sum

/-- `total_target = sum(class_targets.values())` (rebalancer.py line 53). -/
def total_target (assets : List Asset) : ℚ :=
  ((classesOf assets).map (compute_class_targets assets)).sum

/-- Key list of the `class_cash` dict (rebalancer.py lines 54-63): deficit
classes when the total deficit exceeds 1 percentage point, every present class
in DCA mode, nothing otherwise. -/
def cash_classes (assets : List Asset) : List AssetClass :=
  if 1 < total_deficit assets then deficit_classes assets
  else if 0 < total_target assets then classesOf assets
  else []

/-- Value of `class_cash.get(c, 0)` for `c` among `cash_classes`
(rebalancer.py lines 56-63). -/
def class_budget (assets : List Asset) (cash : ℚ) (c : AssetClass) : ℚ :=
  if 1 < total_deficit assets then cash * (class_gap assets c / total_deficit assets)
  else if 0 < total_target assets then
    cash * (compute_class_targets assets c / total_target assets)
  else 0

/-- The iteration order of pass 1 (rebalancer.py line 71):
`sorted(class_cash, key=lambda c: -class_cash.get(c, 0))` — a stable sort of
the key list by descending budget. -/
def sorted_cash_classes (assets : List Asset) (cash : ℚ) : List AssetClass :=
  List.insertionSort
    (fun c c2 => class_budget assets cash c2 ≤ class_budget assets cash c)
    (cash_classes assets)

/-- The filter-and-rank loop of `_compute_class_buys` (rebalancer.py
lines 131-139): each surviving asset is paired with its `delta` and its
`priority = delta × (2 if zone == BUY else 1)`. -/
def buy_candidates (cls_assets : List Asset) (v_projected : ℚ) (zones : Zones) :
    List (Asset × ℚ × ℚ) :=
  cls_assets.filterMap fun a =>
    let target_val := a.target_weight / 100 * v_projected
    let delta := target_val - a.current_value
    if delta ≤ 0 ∨ a.current_price ≤ 0 then none
    else some (a, delta,
      delta * (if zoneStatusOf zones a.ticker = ZoneStatus.BUY then 2 else 1))

/-- The spending loop of `_compute_class_buys` (rebalancer.py lines 143-152)
over the already-sorted candidate list. -/
def class_buy_loop : List (Asset × ℚ × ℚ) → ℚ → List Order
  | [], _ => []
  | x :: rest, cash_left =>
    if cash_left ≤ 0 then []
    else
      let spend := min x.2.1 cash_left
      let qty : ℤ := ⌊spend / x.1.current_price⌋
      if 0 < qty then
        Order.mk x.1.ticker OrderAction.BUY (qty : ℚ) x.1.current_price ::
          class_buy_loop rest (cash_left - (qty : ℚ) * x.1.current_price)
      else class_buy_loop rest cash_left

/-- Embedding of `_compute_class_buys` (rebalancer.py lines 120-154):
candidates sorted stably by descending priority, then spent greedily. -/
def compute_class_buys (cls_assets : List Asset) (budget v_projected : ℚ)
    (zones : Zones) : List Order :=
  class_buy_loop
    (List.insertionSort (fun x y => y.2.2 ≤ x.2.2)
      (buy_candidates cls_assets v_projected zones))
    budget

/-- Pass 1 of `compute_rebalancing` (rebalancer.py lines 69-86), iterated over
the sorted class list.  A class with budget ≤ 0 is skipped; a class with no
assets yields no orders (in the source via `continue`, here because
`_compute_class_buys` of an empty list is empty).  The `class_spent` dict of
the source is written but never read, so it is not modelled. -/
def pass1_orders (assets : List Asset) (cash v_projected : ℚ) (zones : Zones) :
    List AssetClass → List Order
  | [] => []
  | c :: rest =>
    (if class_budget assets cash c ≤ 0 then []
     else compute_class_buys (assets.filter fun a => decide (a.asset_class = c))
       (class_budget assets cash c) v_projected zones)
    ++ pass1_orders assets cash v_projected zones rest

/-- Total `amount` of a list of orders. -/
def orders_amount (orders : List Order) : ℚ := (orders.map Order.amount).sum

/-- Merging step of the spillover pass (rebalancer.py lines 103-105):
`next(o for o in orders if o.ticker == a.ticker).quantity += qty` adds the
quantity to the first order carrying the ticker. -/
def add_qty_first : List Order → String → ℚ → List Order
  | [], _, _ => []
  | o :: os, t, q =>
    if o.ticker = t then Order.mk o.ticker o.action (o.quantity + q) o.price :: os
    else o :: add_qty_first os t q

/-- Membership test of `ordered_tickers` (rebalancer.py lines 93, 103, 108):
the set always equals the set of tickers of the current order list. -/
def has_ticker (orders : List Order) (t : String) : Bool :=
  orders.any fun o => decide (o.ticker = t)

/-- The `spend` of one spillover step (rebalancer.py lines 97-99):
`max(target_budget, price)` clamped by the remaining cash, where
`target_budget = remaining × target_weight/100` for positive target weights
and 0 otherwise. -/
def spill_spend (a : Asset) (remaining : ℚ) : ℚ :=
  min (max (if 0 < a.target_weight then remaining * (a.target_weight / 100) else 0)
    a.current_price) remaining

/-- The whole-unit quantity of one spillover step (rebalancer.py line 100). -/
def spill_qty (a : Asset) (remaining : ℚ) : ℤ :=
  ⌊spill_spend a remaining / a.current_price⌋

/-- Body of the spillover loop over the `affordable` list
(rebalancer.py lines 94-109). -/
def spill_loop : List Asset → List Order → ℚ → List Order × ℚ
  | [], orders, remaining => (orders, remaining)
  | a :: rest, orders, remaining =>
    if remaining < a.current_price then spill_loop rest orders remaining
    else if spill_qty a remaining ≤ 0 then spill_loop rest orders remaining
    else
      spill_loop rest
        (if has_ticker orders a.ticker then
          add_qty_first orders a.ticker ((spill_qty a remaining : ℤ) : ℚ)
         else orders ++
          [Order.mk a.ticker OrderAction.BUY ((spill_qty a remaining : ℤ) : ℚ) a.current_price])
        (remaining - ((spill_qty a remaining : ℤ) : ℚ) * a.current_price)

/-- Pass 2 of `compute_rebalancing` (rebalancer.py lines 88-109): if more than
one unit of cash remains, buy affordable assets sorted stably by descending
target weight. -/
def spillover (assets : List Asset) (orders : List Order) (remaining : ℚ) :
    List Order × ℚ :=
  if 1 < remaining then
    spill_loop
      (List.insertionSort (fun a b => b.target_weight ≤ a.target_weight)
        (assets.filter fun a => decide (0 < a.current_price ∧ a.current_price ≤ remaining)))
      orders remaining
  else (orders, remaining)

/-- Loop body of `_compute_sells` (rebalancer.py lines 164-178) for one asset.
In the source, a ticker absent from `zones` defaults to status `HOLD` (with
band `None`) and is skipped, so only present `SELL` entries produce orders. -/
def sell_order_of (a : Asset) (v_projected : ℚ) (zones : Zones) : Option Order :=
  match List.lookup a.ticker zones with
  | some (ZoneStatus.SELL, band) =>
    if a.current_price ≤ 0 then none
    else
      let target_at_upper := band.upper_bound / 100 * v_projected
      let excess := a.current_value - target_at_upper
      if excess ≤ 0 then none
      else
        let qty : ℤ := ⌊excess / a.current_price⌋
        if 0 < qty then
          some (Order.mk a.ticker OrderAction.SELL (qty : ℚ) a.current_price)
        else none
  | _ => none

/-- Embedding of `_compute_sells` as a whole (rebalancer.py lines 157-180). -/
def compute_sells (assets : List Asset) (v_projected : ℚ) (zones : Zones) :
    List Order :=
  assets.filterMap fun a => sell_order_of a v_projected zones

/-- Embedding of `compute_rebalancing` (rebalancer.py lines 18-117).  After
pass 1 the remaining cash equals the injection minus the total amount of the
pass-1 orders, because the loop subtracts each order amount (lines 82-85). -/
def compute_rebalancing (assets : List Asset) (cash_injection : ℚ) (zones : Zones) :
    List Order × ℚ :=
  let v_projected := compute_portfolio_value assets + cash_injection
  if v_projected ≤ 0 then ([], cash_injection)
  else
    let orders1 := pass1_orders assets cash_injection v_projected zones
      (sorted_cash_classes assets cash_injection)
    let bp := spillover assets orders1 (cash_injection - orders_amount orders1)
    let sells := compute_sells assets v_projected zones
    (bp.1 ++ sells, max (bp.2 + orders_amount sells) 0)

/-- The `all_tickers` set of `suggest_targets` (markowitz.py line 124): the
union of the key sets of the two mappings.  The Python `set` has unspecified
iteration order; the result is read only as a ticker-to-weight mapping, so we
fix first-occurrence order. -/
def union_tickers (current optimal : List (String × ℚ)) : List String :=
  dedupFirstAux [] (current.map Prod.fst ++ optimal.map Prod.fst)

/-- Embedding of `suggest_targets` (markowitz.py lines 113-130): the blend
factor is clamped to `[0, 1]` and each union ticker is mapped to
`current × (1 − blend) + optimal × blend`, missing entries counting as 0. -/
def suggest_targets (current optimal : List (String × ℚ)) (blend_factor : ℚ) :
    List (String × ℚ) :=
  let b := max 0 (min 1 blend_factor)
  (union_tickers current optimal).map fun t =>
    (t, ((List.lookup t current).getD 0) * (1 - b) + ((List.lookup t optimal).getD 0) * b)

/-- Model of `DataFrame.shift(1)` on a row-major price matrix: the first row
becomes all-NaN (`none`), every other row is the previous row; the last row
drops off. -/
def shift1 (prices : List (List ℚ)) : List (List (Option ℚ)) :=
  match prices with
  | [] => []
  | r :: _ => (r.map fun _ => (none : Option ℚ)) :: (prices.dropLast.map fun row => row.map some)

/-- Model of `DataFrame.dropna()`: keep only the rows without a NaN and strip
the `Option` wrapper. -/
def dropna (rows : List (List (Option ℚ))) : List (List ℚ) :=
  rows.filterMap fun row => if row.all Option.isSome then some (row.filterMap id) else none

/-- Embedding of `compute_log_returns` (markowitz.py lines 10-12):
`np.log(prices / prices.shift(1)).dropna()`.  Division and `np.log` are
elementwise and NaN-propagating; `lg` is an abstract total model of the
natural logarithm on the (positive) price ratios, which keeps the definition
executable.  For positive prices the only NaN row is the shifted first row. -/
def compute_log_returns (lg : ℚ → ℚ) (prices : List (List ℚ)) : List (List ℚ) :=
  dropna (List.zipWith
    (fun cur prev => List.zipWith (fun c p => p.map fun pv => lg (c / pv)) cur prev)
    prices (shift1 prices))

/-- Tickers that receive a BUY order, deduplicated (first occurrence kept). -/
def distinct_buy_tickers (orders : List Order) : List String :=
  dedupFirstAux [] ((orders.filter fun o => decide (o.action = OrderAction.BUY)).map Order.ticker)

/-- Total amount of the BUY orders of a list. -/
def buy_amount_total (orders : List Order) : ℚ :=
  orders_amount (orders.filter fun o => decide (o.action = OrderAction.BUY))

/-- Total amount of the SELL orders of a list. -/
def sell_amount_total (orders : List Order) : ℚ :=
  orders_amount (orders.filter fun o => decide (o.action = OrderAction.SELL))

/-- One row of log returns: `cur[j] / prev[j]` passed through the log model. -/
def logr_row (lg : ℚ → ℚ) (prev cur : List ℚ) : List ℚ :=
  List.zipWith (fun c p => lg (c / p)) cur prev

/-- Invariant of the two buy passes: every order is a BUY whose ticker and
price come from one of the portfolio's assets. -/
def buy_order_sourced (assets : List Asset) (o : Order) : Prop :=
  o.action = OrderAction.BUY ∧ ∃ a ∈ assets, o.ticker = a.ticker ∧ o.price = a.current_price

/-- Sample asset: 10 units priced 1, target weight 50%. -/
def sample_sell_asset : Asset := Asset.mk "X" AssetClass.ACAO 10 1 1 50 0

/-- Zones classifying `sample_sell_asset` as SELL with band `[10, 10]`. -/
def sample_sell_zones : Zones := [("X", (ZoneStatus.SELL, Band.mk 10 0 0))]

/-- Sample asset A: empty position priced 1, target weight 50%. -/
def sample_a : Asset := Asset.mk "A" AssetClass.ACAO 0 1 1 50 0

/-- Sample asset B: empty position priced 1, target weight 50%. -/
def sample_b : Asset := Asset.mk "B" AssetClass.ACAO 0 1 1 50 0

/-- Sample asset holding 40 units priced 1, target weight 50%: at a projected
value of 100 its delta is 10 while its relative gap is 10/50 = 1/5. -/
def sample_gap_asset : Asset := Asset.mk "C" AssetClass.ACAO 40 1 1 50 0

/-- C6: when `portfolioValue(assets) + cashInjection ≤ 0`, `compute_rebalancing`
returns the empty order list and residual cash exactly equal to the injection
(rebalancer.py lines 32-36). -/
theorem rebalancing_degenerate (assets : List Asset) (cash : ℚ) (zones : Zones)
    (h : compute_portfolio_value assets + cash ≤ 0) :
    compute_rebalancing assets cash zones = ([], cash) := by
  unfold compute_rebalancing
  simp [h]

/-- Witness for `rebalancing_degenerate` at the empty portfolio with zero cash. -/
theorem rebalancing_degenerate_witness : compute_rebalancing [] 0 [] = ([], 0) :=
  rebalancing_degenerate [] 0 [] (by norm_num [compute_portfolio_value])

/-- C5: for every valid input (cash injection ≥ 0, asset quantities and prices
≥ 0) the residual cash returned by `compute_rebalancing` is nonnegative
(rebalancer.py line 117 clamps it with `max(remaining_cash, 0)`). -/
theorem residual_cash_nonneg (assets : List Asset) (cash : ℚ) (zones : Zones)
    (hc : 0 ≤ cash) (hq : ∀ a ∈ assets, 0 ≤ a.quantity)
    (hp : ∀ a ∈ assets, 0 ≤ a.current_price) :
    0 ≤ (compute_rebalancing assets cash zones).2 := by
  unfold compute_rebalancing
  by_cases h : compute_portfolio_value assets + cash ≤ 0
  · simpa [h] using hc
  · simp [h]

/-- Witness for `residual_cash_nonneg` on a one-asset portfolio. -/
theorem residual_cash_nonneg_witness :
    0 ≤ (compute_rebalancing [sample_sell_asset] 10 sample_sell_zones).2 :=
  residual_cash_nonneg [sample_sell_asset] 10 sample_sell_zones (by norm_num)
    (by norm_num [sample_sell_asset]) (by norm_num [sample_sell_asset])

/-- C7: for `target ≥ 0`, `relative ≥ 0`, `absolute ≥ 0` the band satisfies
`0 ≤ lower_bound ≤ target ≤ upper_bound`, and a target of 0 yields exactly the
band `[0, absolutePp]` (models.py lines 66-68, grey_zones.py lines 6-14). -/
theorem band_bounds_bracket_target (t r ab : ℚ) (ht : 0 ≤ t) (hr : 0 ≤ r)
    (hab : 0 ≤ ab) :
    (0 ≤ (compute_band t r ab).lower_bound ∧ (compute_band t r ab).lower_bound ≤ t ∧
      t ≤ (compute_band t r ab).upper_bound) ∧
    (compute_band 0 r ab).lower_bound = 0 ∧ (compute_band 0 r ab).upper_bound = ab := by
  unfold compute_band Band.lower_bound Band.upper_bound
  refine ⟨⟨le_max_right _ 0, max_le (by nlinarith) ht, by nlinarith⟩, ?_, ?_⟩
  · have h1 : (0:ℚ) - 0 * r - ab = -ab := by ring
    rw [h1]
    exact max_eq_right (by linarith)
  · ring

/-- Witness for `band_bounds_bracket_target` at target 10%, relative tolerance
1/10 and absolute tolerance 2pp. -/
theorem band_bounds_bracket_target_witness :
    (0 ≤ (compute_band 10 (1/10) 2).lower_bound ∧
      (compute_band 10 (1/10) 2).lower_bound ≤ 10 ∧
      10 ≤ (compute_band 10 (1/10) 2).upper_bound) ∧
    (compute_band 0 (1/10) 2).lower_bound = 0 ∧
      (compute_band 0 (1/10) 2).upper_bound = 2 :=
  band_bounds_bracket_target 10 (1/10) 2 (by norm_num) (by norm_num) (by norm_num)

/-- C10: `AssetClass.from_str` is total; whenever the upper-cased string is not
one of the seven enumeration values it silently returns `ACAO`
(models.py lines 16-21). -/
theorem from_str_unknown_falls_back_to_ACAO (s : String)
    (h : assetClassOfValue (pyUpper s) = none) :
    AssetClass.from_str s = AssetClass.ACAO := by
  unfold AssetClass.from_str
  rw [h]
  rfl

/-- Witness for `from_str_unknown_falls_back_to_ACAO` on the string "banana". -/
theorem from_str_unknown_falls_back_to_ACAO_witness :
    AssetClass.from_str "banana" = AssetClass.ACAO :=
  from_str_unknown_falls_back_to_ACAO "banana" (by decide)

/-- C9: there is an input on which `compute_rebalancing` returns both a BUY and
a SELL order for the same ticker in one call: the spillover pass
(rebalancer.py lines 88-109) buys any affordable asset regardless of its zone,
while the sell phase (lines 157-180) sells the same SELL-zone asset. -/
theorem same_ticker_buy_and_sell :
    compute_rebalancing [sample_sell_asset] 10 sample_sell_zones =
      ([Order.mk "X" OrderAction.BUY 5 1, Order.mk "X" OrderAction.SELL 8 1], 13) ∧
    ∃ ob ∈ (compute_rebalancing [sample_sell_asset] 10 sample_sell_zones).1,
      ∃ os ∈ (compute_rebalancing [sample_sell_asset] 10 sample_sell_zones).1,
        ob.action = OrderAction.BUY ∧ os.action = OrderAction.SELL ∧
          ob.ticker = os.ticker := by
  have h : compute_rebalancing [sample_sell_asset] 10 sample_sell_zones =
      ([Order.mk "X" OrderAction.BUY 5 1, Order.mk "X" OrderAction.SELL 8 1], 13) := by
    norm_num [compute_rebalancing, compute_portfolio_value, Asset.current_value,
      sample_sell_asset, sample_sell_zones, pass1_orders, sorted_cash_classes,
      cash_classes, total_deficit, deficit_classes, classesOf, dedupFirstAux,
      class_gap, compute_class_targets, compute_class_weights, class_budget,
      compute_class_buys, buy_candidates, class_buy_loop, List.insertionSort,
      List.orderedInsert, zoneStatusOf, spillover, spill_loop, spill_spend,
      spill_qty, has_ticker, add_qty_first, compute_sells, sell_order_of,
      orders_amount, Order.amount, Band.upper_bound, total_target, List.lookup,
      List.filterMap_cons, List.filterMap_nil]
  refine ⟨h, ?_⟩
  rw [h]
  exact ⟨Order.mk "X" OrderAction.BUY 5 1, by simp,
    Order.mk "X" OrderAction.SELL 8 1, by simp, rfl, rfl, rfl⟩

/-- C1 (divergence witness): `compute_rebalancing` imposes no cap on the number
of distinct BUY tickers — on a two-asset portfolio it emits two distinct BUY
tickers, and its signature (rebalancer.py lines 18-22) has no `max_orders`
parameter at all, although `main.py` line 181 passes one. -/
theorem no_max_orders_cap :
    distinct_buy_tickers (compute_rebalancing [sample_a, sample_b] 10 []).1 =
      ["A", "B"] := by
  norm_num [compute_rebalancing, compute_portfolio_value, Asset.current_value,
    sample_a, sample_b, pass1_orders, sorted_cash_classes, cash_classes,
    total_deficit, deficit_classes, classesOf, dedupFirstAux, class_gap,
    compute_class_targets, compute_class_weights, class_budget,
    compute_class_buys, buy_candidates, class_buy_loop, List.insertionSort,
    List.orderedInsert, zoneStatusOf, spillover, spill_loop, spill_spend,
    spill_qty, has_ticker, add_qty_first, compute_sells, sell_order_of,
    orders_amount, Order.amount, Band.upper_bound, total_target, List.lookup,
    List.filterMap_cons, List.filterMap_nil, distinct_buy_tickers]
  decide

/-- C3 (counterexample to the error claim): on a single price row
`compute_log_returns` returns the empty result — it does not fail, and the
repository defines no `InsufficientData` error at all (markowitz.py
lines 10-12). -/
theorem log_returns_single_row_returns_empty :
    compute_log_returns (fun q => q) [[100]] = [] := by
  norm_num [compute_log_returns, shift1, dropna, List.filterMap_cons,
    List.filterMap_nil]

/-- Characterization of membership in `buy_candidates`: every candidate triple
comes from an asset of the class list, its second component is the absolute
deficit `delta`, the filters `delta > 0` and `price > 0` hold, and the third
component is `delta` doubled exactly for BUY-zone assets. -/
theorem mem_buy_candidates {cls_assets : List Asset} {v : ℚ} {zones : Zones}
    {x : Asset × ℚ × ℚ} (h : x ∈ buy_candidates cls_assets v zones) :
    x.1 ∈ cls_assets ∧ x.2.1 = x.1.target_weight / 100 * v - x.1.current_value ∧
    0 < x.2.1 ∧ 0 < x.1.current_price ∧
    x.2.2 = x.2.1 * (if zoneStatusOf zones x.1.ticker = ZoneStatus.BUY then 2 else 1) := by
  unfold buy_candidates at h
  rw [List.mem_filterMap] at h
  obtain ⟨a, ha, hfa⟩ := h
  dsimp only at hfa
  split at hfa
  · exact Option.noConfusion hfa
  · rename_i hcond
    push_neg at hcond
    obtain rfl := Option.some.inj hfa
    exact ⟨ha, rfl, hcond.1, hcond.2, rfl⟩

/-- C2 (amended): the ranking priority used by `_compute_class_buys` for an
underweight candidate equals `delta × 2` in the BUY zone and `delta × 1`
otherwise, where `delta = target_weight/100 × projectedValue − current_value`
is the absolute currency deficit — not the relative gap
(rebalancer.py line 138). -/
theorem class_buy_priority_formula (cls_assets : List Asset) (v : ℚ)
    (zones : Zones) (a : Asset) (d p : ℚ)
    (h : (a, d, p) ∈ buy_candidates cls_assets v zones) :
    d = a.target_weight / 100 * v - a.current_value ∧ 0 < d ∧
    p = d * (if zoneStatusOf zones a.ticker = ZoneStatus.BUY then 2 else 1) := by
  have hm := mem_buy_candidates h
  exact ⟨hm.2.1, hm.2.2.1, hm.2.2.2.2⟩

/-- Witness for `class_buy_priority_formula` at a concrete asset. -/
theorem class_buy_priority_formula_witness :
    (10:ℚ) = sample_gap_asset.target_weight / 100 * 100 - sample_gap_asset.current_value ∧
    (0:ℚ) < 10 ∧
    (10:ℚ) = 10 * (if zoneStatusOf [] sample_gap_asset.ticker = ZoneStatus.BUY then 2 else 1) :=
  class_buy_priority_formula [sample_gap_asset] 100 [] sample_gap_asset 10 10
    (by
      norm_num [buy_candidates, sample_gap_asset, Asset.current_value,
        zoneStatusOf, List.filterMap_cons, List.filterMap_nil, List.lookup]
      decide)

/-- C2 (counterexample): for the concrete underweight candidate
`sample_gap_asset` at projected value 100 the code's priority is the absolute
delta 10, whereas the claimed formula `relativeGap × 1` gives
`10 / (50/100 × 100) × 1 = 1/5 ≠ 10`. -/
theorem priority_is_not_relative_gap :
    buy_candidates [sample_gap_asset] 100 [] = [(sample_gap_asset, 10, 10)] ∧
    zoneStatusOf [] sample_gap_asset.ticker ≠ ZoneStatus.BUY ∧
    (10:ℚ) ≠ 10 / (sample_gap_asset.target_weight / 100 * 100) * 1 := by
  refine ⟨?_, ?_, ?_⟩
  · norm_num [buy_candidates, sample_gap_asset, Asset.current_value,
      zoneStatusOf, List.filterMap_cons, List.filterMap_nil, List.lookup]
    decide
  · decide
  · norm_num [sample_gap_asset]

/-- Looking a key up in the graph of a function over a key list containing it
returns the function value at that key. -/
theorem lookup_map_self {l : List String} {t : String} (f : String → ℚ)
    (ht : t ∈ l) :
    List.lookup t (l.map fun k => (k, f k)) = some (f t) := by
  induction l with
  | nil => cases ht
  | cons k ks ih =>
    rw [List.map_cons]
    by_cases hk : t = k
    · subst hk
      simp [List.lookup]
    · have hbk : (t == k) = false := beq_eq_false_iff_ne.mpr hk
      rcases List.mem_cons.mp ht with h | h
      · exact absurd h hk
      · simpa [List.lookup, hbk] using ih h

/-- Membership in `dedupFirstAux`: exactly the elements of the list that are
not in the already-seen accumulator. -/
theorem mem_dedupFirstAux {α : Type} [DecidableEq α] {x : α} :
    ∀ (l seen : List α), x ∈ dedupFirstAux seen l ↔ x ∈ l ∧ x ∉ seen := by
  intro l
  induction l with
  | nil => intro seen; simp [dedupFirstAux]
  | cons y ys ih =>
    intro seen
    by_cases hy : y ∈ seen
    · simp only [dedupFirstAux, if_pos hy, ih, List.mem_cons]
      constructor
      · tauto
      · rintro ⟨rfl | h1, h2⟩ <;> tauto
    · simp only [dedupFirstAux, if_neg hy, List.mem_cons, ih]
      constructor
      · rintro (rfl | ⟨h1, h2⟩) <;> tauto
      · rintro ⟨rfl | h1, h2⟩
        · exact Or.inl rfl
        · by_cases hxy : x = y
          · exact Or.inl hxy
          · exact Or.inr ⟨h1, by tauto⟩

/-- C8: `suggest_targets` clamps the blend factor to `[0,1]` and maps every
union ticker to `current × (1 − blend) + optimal × blend` (absent entries
read as 0); blend 0 reproduces the current weight and blend 1 the optimal
weight, for every ticker of the union (markowitz.py lines 113-130). -/
theorem suggest_targets_blend (current optimal : List (String × ℚ)) (b : ℚ)
    (t : String) (ht : t ∈ union_tickers current optimal) :
    List.lookup t (suggest_targets current optimal b) =
      some (((List.lookup t current).getD 0) * (1 - max 0 (min 1 b)) +
        ((List.lookup t optimal).getD 0) * max 0 (min 1 b)) ∧
    List.lookup t (suggest_targets current optimal 0) =
      some ((List.lookup t current).getD 0) ∧
    List.lookup t (suggest_targets current optimal 1) =
      some ((List.lookup t optimal).getD 0) := by
  have key : ∀ c : ℚ, List.lookup t (suggest_targets current optimal c) =
      some (((List.lookup t current).getD 0) * (1 - max 0 (min 1 c)) +
        ((List.lookup t optimal).getD 0) * max 0 (min 1 c)) := by
    intro c
    unfold suggest_targets
    exact lookup_map_self _ ht
  refine ⟨key b, ?_, ?_⟩
  · rw [key 0]
    norm_num
  · rw [key 1]
    norm_num

/-- Witness for `suggest_targets_blend` on concrete one-entry mappings. -/
theorem suggest_targets_blend_witness :
    List.lookup "A" (suggest_targets [("A", 30)] [("B", 80)] (1/2)) =
      some (((List.lookup "A" [("A", (30:ℚ))]).getD 0) * (1 - max 0 (min 1 (1/2))) +
        ((List.lookup "A" [("B", (80:ℚ))]).getD 0) * max 0 (min 1 (1/2))) ∧
    List.lookup "A" (suggest_targets [("A", 30)] [("B", 80)] 0) =
      some ((List.lookup "A" [("A", (30:ℚ))]).getD 0) ∧
    List.lookup "A" (suggest_targets [("A", 30)] [("B", 80)] 1) =
      some ((List.lookup "A" [("B", (80:ℚ))]).getD 0) :=
  suggest_targets_blend [("A", 30)] [("B", 80)] (1/2) "A" (by decide)

/-- A ratio row against an all-`some` shifted row is the plain log-return row
wrapped in `some`. -/
theorem zip_row_somes (lg : ℚ → ℚ) (cur prev : List ℚ) :
    List.zipWith (fun c p => p.map fun pv => lg (c / pv)) cur (prev.map some) =
      (logr_row lg prev cur).map some := by
  rw [List.zipWith_map_right, logr_row, List.map_zipWith]
  simp [Option.map_some]

/-- `dropna` keeps a NaN-free row, stripping the `some` wrappers. -/
theorem dropna_cons_somes (l : List ℚ) (rest : List (List (Option ℚ))) :
    dropna ((l.map some) :: rest) = l :: dropna rest := by
  unfold dropna
  rw [List.filterMap_cons]
  simp [List.all_map]

/-- `dropna` drops a row that contains a NaN. -/
theorem dropna_cons_of_none {row : List (Option ℚ)} {rest : List (List (Option ℚ))}
    (h : row.all Option.isSome = false) :
    dropna (row :: rest) = dropna rest := by
  unfold dropna
  rw [List.filterMap_cons, h]
  simp

/-- Core of `compute_log_returns`: once past the shifted first row, `dropna`
of the ratio rows yields exactly the consecutive-row log returns. -/
theorem dropna_ratio_rows (lg : ℚ → ℚ) :
    ∀ (l : List (List ℚ)) (prev : List ℚ),
      dropna (List.zipWith
        (fun cur pr => List.zipWith (fun c p => p.map fun pv => lg (c / pv)) cur pr)
        l ((prev :: l.dropLast).map (List.map some))) =
      List.zipWith (logr_row lg) (prev :: l) l := by
  intro l
  induction l with
  | nil =>
    intro prev
    simp [dropna]
  | cons r l2 ih =>
    intro prev
    cases l2 with
    | nil =>
      simp only [List.dropLast_single, List.map_cons, List.map_nil,
        List.zipWith_cons_cons, List.zipWith_nil_right, zip_row_somes,
        dropna_cons_somes]
      simp [dropna]
    | cons x l3 =>
      rw [List.dropLast_cons₂, List.map_cons, List.zipWith_cons_cons,
        zip_row_somes, dropna_cons_somes, ih r]
      rfl

/-- C3 (amended): `compute_log_returns` never fails; it always equals the
consecutive-row log-return matrix with the first (undefined) row dropped, its
row count is one less than the price row count, and fewer than 2 price rows
yield the empty result instead of an `InsufficientData` error
(markowitz.py lines 10-12).  The hypotheses record the modelling boundary:
rows are nonempty and prices positive, so the shifted first row is the only
NaN row produced by `np.log(prices / prices.shift(1))`. -/
theorem log_returns_drop_first_row (lg : ℚ → ℚ) (prices : List (List ℚ))
    (hw : ∀ row ∈ prices, row ≠ []) (hpos : ∀ row ∈ prices, ∀ p ∈ row, 0 < p) :
    compute_log_returns lg prices = List.zipWith (logr_row lg) prices prices.tail ∧
    (compute_log_returns lg prices).length = prices.length - 1 ∧
    (prices.length < 2 → compute_log_returns lg prices = []) := by
  have main : compute_log_returns lg prices =
      List.zipWith (logr_row lg) prices prices.tail := by
    cases prices with
    | nil => simp [compute_log_returns, shift1, dropna]
    | cons r l =>
      unfold compute_log_returns shift1
      rw [List.zipWith_cons_cons]
      have hne : r ≠ [] := hw r (List.mem_cons_self _ _)
      have hrow : (List.zipWith (fun c p => p.map fun pv => lg (c / pv)) r
          (r.map fun _ => (none : Option ℚ))).all Option.isSome = false := by
        cases r with
        | nil => exact absurd rfl hne
        | cons c cs => simp
      rw [dropna_cons_of_none hrow]
      cases l with
      | nil => simp [dropna]
      | cons x l3 =>
        rw [List.dropLast_cons₂, dropna_ratio_rows lg (x :: l3) r]
        rfl
  refine ⟨main, ?_, ?_⟩
  · rw [main, List.length_zipWith, List.length_tail]
    omega
  · intro hlen
    rw [main]
    cases prices with
    | nil => rfl
    | cons r l =>
      cases l with
      | nil => rfl
      | cons x l3 =>
        simp only [List.length_cons] at hlen
        omega

/-- Witness for `log_returns_drop_first_row` on a three-row price column. -/
theorem log_returns_drop_first_row_witness :
    compute_log_returns (fun q => q) [[4], [8], [2]] =
      List.zipWith (logr_row fun q => q) [[4], [8], [2]] [[8], [2]] ∧
    (compute_log_returns (fun q => q) [[4], [8], [2]]).length = 2 ∧
    (([[(4:ℚ)], [8], [2]] : List (List ℚ)).length < 2 →
      compute_log_returns (fun q => q) [[4], [8], [2]] = []) :=
  log_returns_drop_first_row (fun q => q) [[4], [8], [2]] (by decide)
    (by norm_num)

/-- Buying `⌊x / y⌋` whole units at unit price `y` costs at most `x`. -/
theorem floor_units_cost_le (x y : ℚ) (hy : 0 < y) : ((⌊x / y⌋ : ℤ) : ℚ) * y ≤ x := by
  calc ((⌊x / y⌋ : ℤ) : ℚ) * y ≤ (x / y) * y :=
        mul_le_mul_of_nonneg_right (Int.floor_le (x / y)) (le_of_lt hy)
    _ = x := div_mul_cancel₀ x (ne_of_gt hy)

/-- `orders_amount` is additive on concatenation. -/
theorem orders_amount_append (l1 l2 : List Order) :
    orders_amount (l1 ++ l2) = orders_amount l1 + orders_amount l2 := by
  simp [orders_amount]

/-- The greedy spending loop of `_compute_class_buys` never spends more than
its (positive part of the) budget. -/
theorem class_buy_loop_amount_le :
    ∀ (l : List (Asset × ℚ × ℚ)) (c : ℚ),
      (∀ x ∈ l, 0 < x.1.current_price) →
      orders_amount (class_buy_loop l c) ≤ max c 0 := by
  intro l
  induction l with
  | nil =>
    intro c _
    simp [class_buy_loop, orders_amount]
  | cons x rest ih =>
    intro c hl
    have hp : 0 < x.1.current_price := hl x (List.mem_cons_self _ _)
    have hrest : ∀ y ∈ rest, 0 < y.1.current_price :=
      fun y hy => hl y (List.mem_cons_of_mem _ hy)
    rw [class_buy_loop]
    by_cases hc : c ≤ 0
    · simp [if_pos hc, orders_amount]
    · rw [if_neg hc]
      push_neg at hc
      by_cases hq : 0 < ⌊min x.2.1 c / x.1.current_price⌋
      · rw [if_pos hq]
        have hcost : ((⌊min x.2.1 c / x.1.current_price⌋ : ℤ) : ℚ) * x.1.current_price ≤
            min x.2.1 c := floor_units_cost_le _ _ hp
        have hmin : min x.2.1 c ≤ c := min_le_right _ _
        have hrec := ih (c - (⌊min x.2.1 c / x.1.current_price⌋ : ℚ) * x.1.current_price) hrest
        have hrem_nonneg : 0 ≤ c - (⌊min x.2.1 c / x.1.current_price⌋ : ℚ) * x.1.current_price := by
          linarith
        rw [max_eq_left hrem_nonneg] at hrec
        rw [max_eq_left (le_of_lt hc)]
        simp only [orders_amount, List.map_cons, List.sum_cons, Order.amount] at hrec ⊢
        linarith
      · rw [if_neg hq]
        exact ih c hrest

/-- Every order produced by the spending loop is a BUY whose ticker and price
come from one of the candidate triples. -/
theorem class_buy_loop_mem :
    ∀ (l : List (Asset × ℚ × ℚ)) (c : ℚ) (o : Order), o ∈ class_buy_loop l c →
      o.action = OrderAction.BUY ∧
      ∃ x ∈ l, o.ticker = x.1.ticker ∧ o.price = x.1.current_price := by
  intro l
  induction l with
  | nil =>
    intro c o ho
    simp [class_buy_loop] at ho
  | cons x rest ih =>
    intro c o ho
    rw [class_buy_loop] at ho
    by_cases hc : c ≤ 0
    · rw [if_pos hc] at ho
      simp at ho
    · rw [if_neg hc] at ho
      by_cases hq : 0 < ⌊min x.2.1 c / x.1.current_price⌋
      · rw [if_pos hq] at ho
        rcases List.mem_cons.mp ho with rfl | ho2
        · exact ⟨rfl, x, List.mem_cons_self _ _, rfl, rfl⟩
        · obtain ⟨hact, y, hy, hty, hpy⟩ := ih _ o ho2
          exact ⟨hact, y, List.mem_cons_of_mem _ hy, hty, hpy⟩
      · rw [if_neg hq] at ho
        obtain ⟨hact, y, hy, hty, hpy⟩ := ih c o ho
        exact ⟨hact, y, List.mem_cons_of_mem _ hy, hty, hpy⟩

/-- `_compute_class_buys` spends at most its budget. -/
theorem compute_class_buys_amount_le (cls_assets : List Asset) (b v : ℚ)
    (zones : Zones) :
    orders_amount (compute_class_buys cls_assets b v zones) ≤ max b 0 := by
  apply class_buy_loop_amount_le
  intro x hx
  have hx2 : x ∈ buy_candidates cls_assets v zones :=
    (List.perm_insertionSort _ _).mem_iff.mp hx
  exact (mem_buy_candidates hx2).2.2.2.1

/-- Every order of `_compute_class_buys` is a BUY sourced from the class's
asset list. -/
theorem compute_class_buys_mem (cls_assets : List Asset) (b v : ℚ)
    (zones : Zones) (o : Order) (ho : o ∈ compute_class_buys cls_assets b v zones) :
    o.action = OrderAction.BUY ∧
    ∃ a ∈ cls_assets, o.ticker = a.ticker ∧ o.price = a.current_price := by
  obtain ⟨hact, x, hx, hty, hpy⟩ := class_buy_loop_mem _ _ o ho
  have hx2 : x ∈ buy_candidates cls_assets v zones :=
    (List.perm_insertionSort _ _).mem_iff.mp hx
  exact ⟨hact, x.1, (mem_buy_candidates hx2).1, hty, hpy⟩

/-- Pass 1 spends, over any class list, at most the sum of the positive parts
of the class budgets. -/
theorem pass1_orders_amount_le (assets : List Asset) (cash v : ℚ) (zones : Zones) :
    ∀ cls_list : List AssetClass,
      orders_amount (pass1_orders assets cash v zones cls_list) ≤
        (cls_list.map fun c => max (class_budget assets cash c) 0).sum := by
  intro cls_list
  induction cls_list with
  | nil => simp [pass1_orders, orders_amount]
  | cons c rest ih =>
    rw [pass1_orders, orders_amount_append, List.map_cons, List.sum_cons]
    apply add_le_add _ ih
    by_cases hb : class_budget assets cash c ≤ 0
    · simp [if_pos hb, orders_amount]
    · rw [if_neg hb]
      exact compute_class_buys_amount_le _ _ _ _

/-- Every pass-1 order is a BUY sourced from the portfolio. -/
theorem pass1_orders_mem (assets : List Asset) (cash v : ℚ) (zones : Zones) :
    ∀ (cls_list : List AssetClass) (o : Order),
      o ∈ pass1_orders assets cash v zones cls_list → buy_order_sourced assets o := by
  intro cls_list
  induction cls_list with
  | nil =>
    intro o ho
    simp [pass1_orders] at ho
  | cons c rest ih =>
    intro o ho
    rw [pass1_orders, List.mem_append] at ho
    rcases ho with ho | ho
    · by_cases hb : class_budget assets cash c ≤ 0
      · rw [if_pos hb] at ho
        simp at ho
      · rw [if_neg hb] at ho
        obtain ⟨hact, a, ha, hta, hpa⟩ := compute_class_buys_mem _ _ _ _ o ho
        exact ⟨hact, a, List.mem_of_mem_filter ha, hta, hpa⟩
    · exact ih o ho

/-- Summing `k * (g c / D)` over a list whose `g`-values sum to `D ≠ 0`
gives exactly `k`. -/
theorem sum_map_proportional (l : List AssetClass) (g : AssetClass → ℚ) (k D : ℚ)
    (hD : (l.map g).sum = D) (hD0 : D ≠ 0) :
    (l.map fun c => k * (g c / D)).sum = k := by
  have h : ∀ (m : List AssetClass), (m.map fun c => k * (g c / D)).sum =
      k / D * (m.map g).sum := by
    intro m
    induction m with
    | nil => simp
    | cons c rest ih =>
      rw [List.map_cons, List.sum_cons, List.map_cons, List.sum_cons, ih]
      ring
  rw [h, hD]
  field_simp

/-- Sum, over the classes that receive cash, of the positive parts of the
class budgets: at most the injected cash (given nonnegative target weights,
both allocation modes distribute exactly the injection or nothing). -/
theorem cash_classes_budget_sum_le (assets : List Asset) (cash : ℚ)
    (hc : 0 ≤ cash) (ht : ∀ a ∈ assets, 0 ≤ a.target_weight) :
    ((cash_classes assets).map fun c => max (class_budget assets cash c) 0).sum ≤ cash := by
  by_cases h1 : 1 < total_deficit assets
  · have hD0 : (0:ℚ) < total_deficit assets := lt_trans zero_lt_one h1
    have hgap : ∀ c ∈ deficit_classes assets, 0 < class_gap assets c := by
      intro c hcm
      have := (List.mem_filter.mp hcm).2
      exact of_decide_eq_true this
    have hpt : ∀ c ∈ deficit_classes assets,
        max (class_budget assets cash c) 0 = cash * (class_gap assets c / total_deficit assets) := by
      intro c hcm
      rw [class_budget, if_pos h1]
      exact max_eq_left (mul_nonneg hc (div_nonneg (le_of_lt (hgap c hcm)) (le_of_lt hD0)))
    rw [cash_classes, if_pos h1, List.map_congr_left hpt,
      sum_map_proportional _ _ cash (total_deficit assets) rfl (ne_of_gt hD0)]
  · by_cases h2 : 0 < total_target assets
    · have htc : ∀ c, 0 ≤ compute_class_targets assets c := by
        intro c
        apply List.sum_nonneg
        intro x hx
        obtain ⟨a, ha, rfl⟩ := List.mem_map.mp hx
        exact ht a (List.mem_of_mem_filter ha)
      have hpt : ∀ c ∈ classesOf assets,
          max (class_budget assets cash c) 0 =
            cash * (compute_class_targets assets c / total_target assets) := by
        intro c _
        rw [class_budget, if_neg h1, if_pos h2]
        exact max_eq_left (mul_nonneg hc (div_nonneg (htc c) (le_of_lt h2)))
      rw [cash_classes, if_neg h1, if_pos h2, List.map_congr_left hpt,
        sum_map_proportional _ _ cash (total_target assets) rfl (ne_of_gt h2)]
    · rw [cash_classes, if_neg h1, if_neg h2]
      simpa using hc

/-- Budget sums are invariant under the stable reordering of pass 1. -/
theorem sorted_cash_classes_budget_sum (assets : List Asset) (cash : ℚ)
    (f : AssetClass → ℚ) :
    ((sorted_cash_classes assets cash).map f).sum = ((cash_classes assets).map f).sum :=
  ((List.perm_insertionSort _ _).map f).sum_eq

/-- `has_ticker` decides the presence of an order with the ticker. -/
theorem has_ticker_iff (orders : List Order) (t : String) :
    has_ticker orders t = true ↔ ∃ o ∈ orders, o.ticker = t := by
  simp [has_ticker]

/-- Merging quantity `q` into the first order carrying ticker `t` raises the
total amount by `q` times that order's price. -/
theorem add_qty_first_amount :
    ∀ (orders : List Order) (t : String) (q : ℚ),
      (∃ o ∈ orders, o.ticker = t) →
      ∃ o ∈ orders, o.ticker = t ∧
        orders_amount (add_qty_first orders t q) = orders_amount orders + q * o.price := by
  intro orders
  induction orders with
  | nil =>
    intro t q h
    obtain ⟨o, ho, _⟩ := h
    exact absurd ho (List.not_mem_nil o)
  | cons o os ih =>
    intro t q h
    by_cases ho : o.ticker = t
    · refine ⟨o, List.mem_cons_self _ _, ho, ?_⟩
      rw [add_qty_first, if_pos ho]
      simp only [orders_amount, List.map_cons, List.sum_cons, Order.amount]
      ring
    · have h2 : ∃ o2 ∈ os, o2.ticker = t := by
        obtain ⟨o2, ho2, ht2⟩ := h
        rcases List.mem_cons.mp ho2 with rfl | ho3
        · exact absurd ht2 ho
        · exact ⟨o2, ho3, ht2⟩
      obtain ⟨o2, ho2, ht2, heq⟩ := ih t q h2
      refine ⟨o2, List.mem_cons_of_mem _ ho2, ht2, ?_⟩
      rw [add_qty_first, if_neg ho]
      simp only [orders_amount, List.map_cons, List.sum_cons, Order.amount] at heq ⊢
      linarith

/-- Merging a quantity never changes an order's action, ticker or price. -/
theorem add_qty_first_fields :
    ∀ (orders : List Order) (t : String) (q : ℚ) (o2 : Order),
      o2 ∈ add_qty_first orders t q →
      ∃ o ∈ orders, o2.action = o.action ∧ o2.ticker = o.ticker ∧ o2.price = o.price := by
  intro orders
  induction orders with
  | nil =>
    intro t q o2 h
    simp [add_qty_first] at h
  | cons o os ih =>
    intro t q o2 h
    rw [add_qty_first] at h
    by_cases ho : o.ticker = t
    · rw [if_pos ho] at h
      rcases List.mem_cons.mp h with rfl | h2
      · exact ⟨o, List.mem_cons_self _ _, rfl, rfl, rfl⟩
      · exact ⟨o2, List.mem_cons_of_mem _ h2, rfl, rfl, rfl⟩
    · rw [if_neg ho] at h
      rcases List.mem_cons.mp h with rfl | h2
      · exact ⟨o2, List.mem_cons_self _ _, rfl, rfl, rfl⟩
      · obtain ⟨o3, ho3, h3⟩ := ih t q o2 h2
        exact ⟨o3, List.mem_cons_of_mem _ ho3, h3⟩

/-- One spillover purchase of `q` units of asset `a` — merged into an existing
order or appended as a new one — keeps every order BUY-sourced and raises the
total amount by exactly `q × a.current_price` (this uses ticker uniqueness:
the merged-into order was priced from the same asset). -/
theorem spill_merge_spec (assets : List Asset) (hnd : (assets.map Asset.ticker).Nodup)
    (orders : List Order) (a : Asset) (ha : a ∈ assets) (q : ℚ)
    (hord : ∀ o ∈ orders, buy_order_sourced assets o) :
    (∀ o ∈ (if has_ticker orders a.ticker then add_qty_first orders a.ticker q
      else orders ++ [Order.mk a.ticker OrderAction.BUY q a.current_price]),
      buy_order_sourced assets o) ∧
    orders_amount (if has_ticker orders a.ticker then add_qty_first orders a.ticker q
      else orders ++ [Order.mk a.ticker OrderAction.BUY q a.current_price]) =
      orders_amount orders + q * a.current_price := by
  by_cases hht : has_ticker orders a.ticker = true
  · simp only [if_pos hht]
    obtain ⟨o, ho_mem, ho_t, heq⟩ :=
      add_qty_first_amount orders a.ticker q ((has_ticker_iff _ _).mp hht)
    obtain ⟨_, a2, ha2, ht2, hp2⟩ := hord o ho_mem
    have haa : a2 = a := by
      apply List.inj_on_of_nodup_map hnd ha2 ha
      rw [← ht2]
      exact ho_t
    constructor
    · intro o2 ho2
      obtain ⟨o3, ho3, hact3, ht3, hp3⟩ := add_qty_first_fields orders a.ticker q o2 ho2
      obtain ⟨hb3, a3, ha3, t3, p3⟩ := hord o3 ho3
      exact ⟨hact3.trans hb3, a3, ha3, ht3.trans t3, hp3.trans p3⟩
    · rw [heq, hp2, haa]
  · simp only [if_neg hht]
    constructor
    · intro o2 ho2
      rcases List.mem_append.mp ho2 with h | h
      · exact hord o2 h
      · rw [List.mem_singleton.mp h]
        exact ⟨rfl, a, ha, rfl, rfl⟩
    · rw [orders_amount_append]
      simp [orders_amount, Order.amount]

/-- The spillover loop preserves the BUY-sourced invariant and conserves cash:
total order amount plus remaining cash is unchanged, and the remaining cash
stays nonnegative. -/
theorem spill_loop_spec (assets : List Asset) (hnd : (assets.map Asset.ticker).Nodup) :
    ∀ (l : List Asset) (orders : List Order) (rem : ℚ),
      (∀ a ∈ l, a ∈ assets ∧ 0 < a.current_price) →
      (∀ o ∈ orders, buy_order_sourced assets o) →
      0 ≤ rem →
      (∀ o ∈ (spill_loop l orders rem).1, buy_order_sourced assets o) ∧
      0 ≤ (spill_loop l orders rem).2 ∧
      orders_amount (spill_loop l orders rem).1 + (spill_loop l orders rem).2 =
        orders_amount orders + rem := by
  intro l
  induction l with
  | nil =>
    intro orders rem _ hord hrem
    exact ⟨hord, hrem, rfl⟩
  | cons a rest ih =>
    intro orders rem hl hord hrem
    obtain ⟨ha_mem, ha_pos⟩ := hl a (List.mem_cons_self _ _)
    have hrest : ∀ a2 ∈ rest, a2 ∈ assets ∧ 0 < a2.current_price :=
      fun a2 h2 => hl a2 (List.mem_cons_of_mem _ h2)
    rw [spill_loop]
    by_cases h1 : rem < a.current_price
    · rw [if_pos h1]
      exact ih orders rem hrest hord hrem
    · rw [if_neg h1]
      by_cases h2 : spill_qty a rem ≤ 0
      · rw [if_pos h2]
        exact ih orders rem hrest hord hrem
      · rw [if_neg h2]
        have hcost : ((spill_qty a rem : ℤ) : ℚ) * a.current_price ≤ spill_spend a rem :=
          floor_units_cost_le _ _ ha_pos
        have hsp_le : spill_spend a rem ≤ rem := min_le_right _ _
        have hrem2 : 0 ≤ rem - ((spill_qty a rem : ℤ) : ℚ) * a.current_price := by
          linarith
        obtain ⟨hmo, hma⟩ := spill_merge_spec assets hnd orders a ha_mem
          ((spill_qty a rem : ℤ) : ℚ) hord
        obtain ⟨ho3, hr3, ha3⟩ := ih _ _ hrest hmo hrem2
        refine ⟨ho3, hr3, ?_⟩
        rw [ha3, hma]
        ring

/-- The spillover pass preserves the BUY-sourced invariant and conserves cash. -/
theorem spillover_spec (assets : List Asset) (hnd : (assets.map Asset.ticker).Nodup)
    (orders : List Order) (rem : ℚ)
    (hord : ∀ o ∈ orders, buy_order_sourced assets o) (hrem : 0 ≤ rem) :
    (∀ o ∈ (spillover assets orders rem).1, buy_order_sourced assets o) ∧
    0 ≤ (spillover assets orders rem).2 ∧
    orders_amount (spillover assets orders rem).1 + (spillover assets orders rem).2 =
      orders_amount orders + rem := by
  unfold spillover
  by_cases h1 : 1 < rem
  · rw [if_pos h1]
    apply spill_loop_spec assets hnd _ orders rem _ hord hrem
    intro a ha
    have ha2 := (List.perm_insertionSort _ _).mem_iff.mp ha
    have hm := List.mem_filter.mp ha2
    exact ⟨hm.1, (of_decide_eq_true hm.2).1⟩
  · rw [if_neg h1]
    exact ⟨hord, hrem, rfl⟩

/-- Every order of `_compute_sells` is a SELL. -/
theorem compute_sells_action (assets : List Asset) (v : ℚ) (zones : Zones)
    (o : Order) (ho : o ∈ compute_sells assets v zones) :
    o.action = OrderAction.SELL := by
  unfold compute_sells at ho
  rw [List.mem_filterMap] at ho
  obtain ⟨a, _, hfa⟩ := ho
  unfold sell_order_of at hfa
  split at hfa
  · split at hfa
    · exact Option.noConfusion hfa
    · dsimp only at hfa
      split at hfa
      · exact Option.noConfusion hfa
      · split at hfa
        · rw [← Option.some.inj hfa]
        · exact Option.noConfusion hfa
  · exact Option.noConfusion hfa

/-- Splitting the amounts of a buys-then-sells order list. -/
theorem split_amounts_buys_sells (assets : List Asset) (buys sells : List Order)
    (hb : ∀ o ∈ buys, buy_order_sourced assets o)
    (hs : ∀ o ∈ sells, o.action = OrderAction.SELL) :
    buy_amount_total (buys ++ sells) = orders_amount buys ∧
    sell_amount_total (buys ++ sells) = orders_amount sells := by
  have hbb : buys.filter (fun o => decide (o.action = OrderAction.BUY)) = buys := by
    rw [List.filter_eq_self]
    intro o ho
    simpa using (hb o ho).1
  have hbs : sells.filter (fun o => decide (o.action = OrderAction.BUY)) = [] := by
    rw [List.filter_eq_nil_iff]
    intro o ho
    simp [hs o ho]
  have hsb : buys.filter (fun o => decide (o.action = OrderAction.SELL)) = [] := by
    rw [List.filter_eq_nil_iff]
    intro o ho
    simp [(hb o ho).1]
  have hss : sells.filter (fun o => decide (o.action = OrderAction.SELL)) = sells := by
    rw [List.filter_eq_self]
    intro o ho
    simpa using hs o ho
  constructor
  · rw [buy_amount_total, List.filter_append, hbb, hbs, orders_amount_append]
    simp [orders_amount]
  · rw [sell_amount_total, List.filter_append, hsb, hss, orders_amount_append]
    simp [orders_amount]

/-- Cash accounting of the whole non-degenerate pipeline (pass 1, spillover,
sells), for any projected value `v`: the BUY total is bounded by the injection
and the pre-`max` residual is the injection minus the BUY total plus the SELL
total. -/
theorem pipeline_spec (assets : List Asset) (cash v : ℚ) (zones : Zones)
    (hc : 0 ≤ cash) (ht : ∀ a ∈ assets, 0 ≤ a.target_weight)
    (hnd : (assets.map Asset.ticker).Nodup) :
    buy_amount_total ((spillover assets
        (pass1_orders assets cash v zones (sorted_cash_classes assets cash))
        (cash - orders_amount (pass1_orders assets cash v zones (sorted_cash_classes assets cash)))).1
      ++ compute_sells assets v zones) ≤ cash ∧
    max ((spillover assets
        (pass1_orders assets cash v zones (sorted_cash_classes assets cash))
        (cash - orders_amount (pass1_orders assets cash v zones (sorted_cash_classes assets cash)))).2
      + orders_amount (compute_sells assets v zones)) 0 =
    max ((cash - buy_amount_total ((spillover assets
        (pass1_orders assets cash v zones (sorted_cash_classes assets cash))
        (cash - orders_amount (pass1_orders assets cash v zones (sorted_cash_classes assets cash)))).1
      ++ compute_sells assets v zones)) +
      sell_amount_total ((spillover assets
        (pass1_orders assets cash v zones (sorted_cash_classes assets cash))
        (cash - orders_amount (pass1_orders assets cash v zones (sorted_cash_classes assets cash)))).1
      ++ compute_sells assets v zones)) 0 := by
  have hA : orders_amount (pass1_orders assets cash v zones (sorted_cash_classes assets cash)) ≤ cash := by
    calc orders_amount (pass1_orders assets cash v zones (sorted_cash_classes assets cash)) ≤
        ((sorted_cash_classes assets cash).map fun c => max (class_budget assets cash c) 0).sum :=
          pass1_orders_amount_le assets cash v zones _
      _ = ((cash_classes assets).map fun c => max (class_budget assets cash c) 0).sum :=
          sorted_cash_classes_budget_sum assets cash _
      _ ≤ cash := cash_classes_budget_sum_le assets cash hc ht
  have hM : ∀ o ∈ pass1_orders assets cash v zones (sorted_cash_classes assets cash),
      buy_order_sourced assets o :=
    fun o ho => pass1_orders_mem assets cash v zones _ o ho
  set O1 := pass1_orders assets cash v zones (sorted_cash_classes assets cash) with hO1
  obtain ⟨hord2, hrem2, hacc⟩ :=
    spillover_spec assets hnd O1 (cash - orders_amount O1) hM (by linarith)
  have hsell : ∀ o ∈ compute_sells assets v zones, o.action = OrderAction.SELL :=
    fun o ho => compute_sells_action assets v zones o ho
  obtain ⟨hbt, hst⟩ := split_amounts_buys_sells assets
    (spillover assets O1 (cash - orders_amount O1)).1 (compute_sells assets v zones)
    hord2 hsell
  constructor
  · rw [hbt]
    linarith
  · rw [hbt, hst]
    have hbp2 : (spillover assets O1 (cash - orders_amount O1)).2 =
        cash - orders_amount (spillover assets O1 (cash - orders_amount O1)).1 := by
      linarith
    rw [hbp2]

/-- C4: on every valid input (cash injection ≥ 0, quantities, prices and
target weights ≥ 0, unique tickers — the data-model invariants of spec §3/§7)
the total amount of the BUY orders of `compute_rebalancing` never exceeds the
cash injection, and the residual equals
`max(cash − buyTotal + sellTotal, 0)`: sell proceeds only ever flow into the
residual cash, never into buys of the same call (rebalancer.py lines 66-117). -/
theorem buys_funded_only_by_injection (assets : List Asset) (cash : ℚ)
    (zones : Zones) (hc : 0 ≤ cash) (hq : ∀ a ∈ assets, 0 ≤ a.quantity)
    (hp : ∀ a ∈ assets, 0 ≤ a.current_price)
    (ht : ∀ a ∈ assets, 0 ≤ a.target_weight)
    (hnd : (assets.map Asset.ticker).Nodup) :
    buy_amount_total (compute_rebalancing assets cash zones).1 ≤ cash ∧
    (compute_rebalancing assets cash zones).2 =
      max ((cash - buy_amount_total (compute_rebalancing assets cash zones).1) +
        sell_amount_total (compute_rebalancing assets cash zones).1) 0 := by
  by_cases h0 : compute_portfolio_value assets + cash ≤ 0
  · have heq : compute_rebalancing assets cash zones = ([], cash) := by
      unfold compute_rebalancing
      simp [h0]
    rw [heq]
    constructor
    · simpa [buy_amount_total, orders_amount] using hc
    · simp only [buy_amount_total, sell_amount_total, orders_amount,
        List.filter_nil, List.map_nil, List.sum_nil]
      have h1 : cash - 0 + 0 = cash := by ring
      rw [h1, max_eq_left hc]
  · have h1 := pipeline_spec assets cash (compute_portfolio_value assets + cash)
      zones hc ht hnd
    unfold compute_rebalancing
    simp only [if_neg h0]
    exact h1

/-- Witness for `buys_funded_only_by_injection` on a concrete two-asset
portfolio with cash injection 10. -/
theorem buys_funded_only_by_injection_witness :
    buy_amount_total (compute_rebalancing [sample_a, sample_b] 10 []).1 ≤ 10 ∧
    (compute_rebalancing [sample_a, sample_b] 10 []).2 =
      max ((10 - buy_amount_total (compute_rebalancing [sample_a, sample_b] 10 []).1) +
        sell_amount_total (compute_rebalancing [sample_a, sample_b] 10 []).1) 0 :=
  buys_funded_only_by_injection [sample_a, sample_b] 10 [] (by norm_num)
    (by norm_num [sample_a, sample_b]) (by norm_num [sample_a, sample_b])
    (by norm_num [sample_a, sample_b]) (by decide)

end Invest
